import Mathlib

/-!
Verification development for the loadfile package (src/loadfile.go).

The package routes a filename-like identifier to a source reader via a
registry of regular-expression patterns with a fallback, then decodes the
resulting byte stream with a decoder chosen from the lower-cased filename
extension. The definitions below are a shallow embedding of that Go code:
Go strings are lists of characters, Go errors are their message strings,
and the behaviour of external collaborators (the aws client, os.Open, the
stream decoders of encoding/json, encoding/xml and yaml.v2) is carried as
unconstrained data on the reader value, since that behaviour lives outside
this repository.

A central modelling point: the field Loader.types in the source is a Go
map from compiled regexp pointers to TypeLoader values, and a Go range
loop visits the entries of a map in an unspecified order. The embedding
therefore keeps the entry list in insertion order inside the Loader value
and passes the iteration order of one concrete call as an explicit list,
quantified over all permutations of the entry list in the theorems.
-/

namespace Loadfile

/-- Go error values are modelled by their message string; errors.New makes
an error from a message. -/
abbrev GoError := String

/-- Byte slices are modelled as lists of naturals. -/
abbrev Bytes := List Nat

/-- Model of the io.Reader value a TypeLoader returns, together with the
behaviour of the external collaborators that consume it inside Load:
closeable models whether the dynamic type supports io.Closer (the
reader.(io.Closer) type assertion in Load and the reader.(io.ReadCloser)
assertion in GetReadCloser, which agree because the value already has a
Read method); closeErr is what the Close method returns when invoked;
jsonOutcome and xmlOutcome are the results of Decode of the stream
decoders of encoding/json and encoding/xml built on this reader;
readAllOutcome is the result of ioutil.ReadAll; yamlOutcome is the result
of yaml.Unmarshal on the bytes ReadAll produced. The collaborators are
outside the repository, so their outcomes are unconstrained data. -/
structure Reader where
  closeable : Bool
  closeErr : Option GoError
  jsonOutcome : Option GoError
  xmlOutcome : Option GoError
  readAllOutcome : Except GoError Bytes
  yamlOutcome : Bytes → Option GoError

/-- A pattern is the matching behaviour of a compiled regexp map key:
re.MatchString applied to the identifier, over identifier content as a
character list. -/
abbrev Pattern := List Char → Bool

/-- Walks the identifier looking for a slash character. -/
def hasSlash : List Char → Bool
  | [] => false
  | c :: rest => if c = '/' then true else hasSlash rest

/-- Whether a list is free of newline characters. Under RE2 semantics the
dot of the key group does not match a newline and, without the multi-line
flag, the dollar anchor matches only at end of text, so the key group of
reS3Filename accepts exactly the newline-free lists. -/
def noNewline : List Char → Bool
  | [] => true
  | c :: rest => if c = '\n' then false else noNewline rest

/-- Scans to the first slash and then requires the remainder, the key
group of reS3Filename, to be newline-free. The characters scanned over
before the slash form the bucket group, where the negated class of
non-slash characters accepts any character other than a slash, a newline
included. -/
def keyAfterFirstSlash : List Char → Bool
  | [] => false
  | c :: rest => if c = '/' then noNewline rest else keyAfterFirstSlash rest

/-- Matchability of the sub-expression of reS3Filename after the literal
prefix, namely a nonempty bucket segment without a slash, then a slash,
then a newline-free key running to end of text. Because the bucket group
cannot contain a slash, a match must split the list at its first slash,
which cannot be the first character, and the part after that slash must be
newline-free. -/
def bucketKeyMatch : List Char → Bool
  | [] => false
  | c :: rest => if c = '/' then false else keyAfterFirstSlash rest

/-- MatchString of the anchored regular expression reS3Filename from the
source, which requires the literal prefix of scheme s3, then a bucket
segment of one or more non-slash characters, a slash, and a newline-free
key extending to the end of the text. -/
def reS3Match : Pattern := fun s =>
  match s with
  | 's' :: '3' :: ':' :: '/' :: '/' :: rest => bucketKeyMatch rest
  | _ => false

/-- The literal character prefix of an s3 identifier, the five characters
the regular expression anchors on. -/
def s3Prefix : List Char := ['s', '3', ':', '/', '/']

/-- Error message produced by the S3 loader when FindStringSubmatch does
not yield the three parts, which cannot happen for a matched filename. -/
def impossibleBadMatch : GoError := "Impossible bad match passed to S3Loader"

/-- The TypeLoader interface of the source with its one method GetReader.
The two concrete implementations of the repository are the s3 and file
loaders; their external effect (the aws GetObject round trip, os.Open) is
abstracted as a function parameter of the constructor. The test
constructor stands for any further implementation a caller registers,
with a numeric tag to tell values apart. -/
inductive TypeLoader where
  | s3 (ext : List Char → Except GoError Reader)
  | file (ext : List Char → Except GoError Reader)
  | test (tag : Nat) (behavior : List Char → Except GoError Reader)

/-- GetReader of each TypeLoader implementation. The s3 loader re-runs the
regular expression on the filename and fails with its guard message when
the match does not produce bucket and key; otherwise control passes to the
external aws call. The file loader hands the filename to os.Open
directly. -/
def TypeLoader.GetReader : TypeLoader → List Char → Except GoError Reader
  | .s3 ext, fn => if reS3Match fn then ext fn else .error impossibleBadMatch
  | .file ext, fn => ext fn
  | .test _ b, fn => b fn

/-- The Loader struct of the source: types holds the content of the Go map
from compiled regexp keys to TypeLoader values, listed here in insertion
order, and fallback is the fallback TypeLoader interface value, with none
standing for the nil interface. -/
structure Loader where
  types : List (Pattern × TypeLoader)
  fallback : Option TypeLoader

/-- ErrorNoReader, returned when no loader regex matches and no fallback
is set. -/
def ErrorNoReader : GoError := "No Loader matched the given filename"

/-- The range loop of getReaderGetter over the map entries in the order
one concrete iteration happens to visit them: the first entry whose
pattern matches the filename wins, and when none matches the loop falls
through to the fallback. -/
def iterGetReaderGetter (fallback : Option TypeLoader) :
    List (Pattern × TypeLoader) → List Char → Option TypeLoader
  | [], _ => fallback
  | (re, getter) :: rest, fn =>
    if re fn then some getter else iterGetReaderGetter fallback rest fn

/-- getReaderGetter of the source, relative to the iteration order of the
map range loop in this call; the theorems quantify the order over the
permutations of the registered entries. -/
def Loader.getReaderGetter (l : Loader) (order : List (Pattern × TypeLoader))
    (fn : List Char) : Option TypeLoader :=
  iterGetReaderGetter l.fallback order fn

/-- GetReader of the source: resolve a TypeLoader, fail with ErrorNoReader
when the resolution produced the nil interface, otherwise delegate to the
chosen implementation with the raw filename. -/
def Loader.GetReader (l : Loader) (order : List (Pattern × TypeLoader))
    (fn : List Char) : Except GoError Reader :=
  match l.getReaderGetter order fn with
  | none => .error ErrorNoReader
  | some rg => rg.GetReader fn

/-- The io.ReadCloser value GetReadCloser returns: either the reader
itself when its dynamic type already supports closing, or the
ioutil.NopCloser wrapper around it, whose Close does nothing and returns
nil. -/
inductive ReadCloser where
  | original (r : Reader)
  | nopWrapped (r : Reader)

/-- The reader a ReadCloser value reads from, which carries the byte
stream. -/
def ReadCloser.underlying : ReadCloser → Reader
  | .original r => r
  | .nopWrapped r => r

/-- What Close of the ReadCloser value returns when invoked: the close
result of the reader itself, or nil for the NopCloser wrapper. -/
def ReadCloser.closeResult : ReadCloser → Option GoError
  | .original r => r.closeErr
  | .nopWrapped _ => none

/-- GetReadCloser of the source: propagate a GetReader failure unchanged,
return a closeable reader as is, and wrap a non-closeable one in
ioutil.NopCloser. -/
def Loader.GetReadCloser (l : Loader) (order : List (Pattern × TypeLoader))
    (fn : List Char) : Except GoError ReadCloser :=
  match l.GetReader order fn with
  | .error e => .error e
  | .ok r => if r.closeable then .ok (.original r) else .ok (.nopWrapped r)

/-- strings.Split of the filename on the dot separator, from which the
source takes the last element as the extension. Split never yields an
empty slice: splitting the empty string gives one empty part. -/
def splitDots : List Char → List (List Char)
  | [] => [[]]
  | c :: rest =>
    match splitDots rest with
    | [] => [[]]
    | p :: ps => if c = '.' then [] :: p :: ps else (c :: p) :: ps

/-- The file extension of the source: the last element of the dot split.
The split is never empty, so the default of getD is never consulted. -/
def formatTag (s : List Char) : List Char :=
  ((splitDots s).getLast?).getD []

/-- strings.ToLower of the extension; identifiers are taken over ASCII,
where Char.toLower agrees with the Go function. -/
def lowerTag (s : List Char) : List Char :=
  (formatTag s).map Char.toLower

/-- Which decoder the switch of Load invokes. -/
inductive DecoderKind where
  | json
  | xml
  | yaml
  deriving DecidableEq

/-- The switch of Load on the lower-cased extension: json, xml, and the
pair yml and yaml select the matching decoder; every other extension falls
through to the final statement of Load, which invokes the json decoder as
well, so the default is json. -/
def decoderOfLowerExt (ext : List Char) : DecoderKind :=
  if ext = "json".toList then .json
  else if ext = "xml".toList then .xml
  else if ext = "yml".toList ∨ ext = "yaml".toList then .yaml
  else .json

/-- Decoder selection of Load as a function of the filename. -/
def selectDecoder (fn : List Char) : DecoderKind :=
  decoderOfLowerExt (lowerTag fn)

/-- Observable outcome of one Load call: the error Load returns, with none
for nil, and how many times Close was invoked on the acquired reader. The
deferred Close discards its own return value, and the return value of Load
is not a named result, so the deferred call cannot alter the returned
error. -/
structure LoadResult where
  retErr : Option GoError
  closes : Nat
  deriving DecidableEq

/-- The part of Load after the reader has been acquired: a Close is
deferred exactly when the reader supports io.Closer, the extension switch
picks the decode step, and every return path runs the deferred Close once
on the way out. The json and xml branches return the Decode result of the
matching stream decoder; the yaml branch first buffers the whole stream
with ioutil.ReadAll, returning a read failure directly, and otherwise
returns the yaml.Unmarshal result on the buffered bytes. -/
def loadAcquired (fn : List Char) (r : Reader) : LoadResult :=
  let closes : Nat := if r.closeable then 1 else 0
  match selectDecoder fn with
  | .json => { retErr := r.jsonOutcome, closes := closes }
  | .xml => { retErr := r.xmlOutcome, closes := closes }
  | .yaml =>
    match r.readAllOutcome with
    | .error e => { retErr := some e, closes := closes }
    | .ok b => { retErr := r.yamlOutcome b, closes := closes }

/-- Load of the source: fetch a reader for the filename, propagating a
GetReader failure without any close, then run the acquired part. -/
def Loader.Load (l : Loader) (order : List (Pattern × TypeLoader))
    (fn : List Char) : LoadResult :=
  match l.GetReader order fn with
  | .error e => { retErr := some e, closes := 0 }
  | .ok r => loadAcquired fn r

/-- DefaultLoader of the source: the s3 pattern bound to the s3 loader in
a one-entry map, and the file loader as fallback. The external behaviours
of the two built-in loaders are parameters. -/
def DefaultLoader (s3Ext fileExt : List Char → Except GoError Reader) : Loader :=
  { types := [(reS3Match, TypeLoader.s3 s3Ext)]
    fallback := some (TypeLoader.file fileExt) }

/-- Modelled from the spec wording, for the refinement check of the format
tag: the substring of the identifier after the last separator, read off as
the trailing run of non-separator characters. -/
def suffixAfterLastSep (s : List Char) : List Char :=
  (s.reverse.takeWhile (fun c => c != '.')).reverse

-- Helper lemmas about the range loop of getReaderGetter.

/-- When no visited entry matches, the loop falls through to the
fallback. -/
theorem iter_no_match (fb : Option TypeLoader) (fn : List Char) :
    ∀ order : List (Pattern × TypeLoader), (∀ e ∈ order, e.1 fn = false) →
    iterGetReaderGetter fb order fn = fb := by
  intro order
  induction order with
  | nil => intro _; rfl
  | cons hd tl ih =>
    intro h
    obtain ⟨p, g⟩ := hd
    have hp : p fn = false := h (p, g) (List.Mem.head _)
    simp only [iterGetReaderGetter, hp, Bool.false_eq_true, if_false]
    exact ih fun e he => h e (List.Mem.tail _ he)

/-- When some visited entry matches, the loop returns the getter of a
matching entry. -/
theorem iter_first_match (fb : Option TypeLoader) (fn : List Char) :
    ∀ order : List (Pattern × TypeLoader), (∃ e ∈ order, e.1 fn = true) →
    ∃ e ∈ order, e.1 fn = true ∧ iterGetReaderGetter fb order fn = some e.2 := by
  intro order
  induction order with
  | nil => rintro ⟨e, he, -⟩; cases he
  | cons hd tl ih =>
    intro hex
    obtain ⟨p, g⟩ := hd
    by_cases hp : p fn = true
    · exact ⟨(p, g), List.Mem.head _, hp, by simp [iterGetReaderGetter, hp]⟩
    · have hp0 : p fn = false := by
        cases h : p fn
        · rfl
        · exact absurd h hp
      obtain ⟨e, he, hm⟩ := hex
      rcases List.mem_cons.mp he with rfl | htl
      · exact absurd hm hp
      · obtain ⟨e2, he2, hm2, hres⟩ := ih ⟨e, htl, hm⟩
        exact ⟨e2, List.Mem.tail _ he2, hm2, by
          simp [iterGetReaderGetter, hp0, hres]⟩

-- Helper lemmas about the dot split and the extension.

/-- The dot split never produces the empty list. -/
theorem splitDots_ne_nil (s : List Char) : splitDots s ≠ [] := by
  cases s with
  | nil => simp [splitDots]
  | cons c rest =>
    simp only [splitDots]
    cases splitDots rest with
    | nil => simp
    | cons p ps =>
      by_cases h : c = '.' <;> simp [h]

/-- One step of the dot split, with the recursive call exposed. -/
theorem splitDots_cons (c : Char) (rest p : List Char) (ps : List (List Char))
    (h : splitDots rest = p :: ps) :
    splitDots (c :: rest) =
      if c = '.' then [] :: p :: ps else (c :: p) :: ps := by
  simp only [splitDots, h]

/-- A string without a dot splits into itself alone. -/
theorem splitDots_no_dot (s : List Char) (h : '.' ∉ s) : splitDots s = [s] := by
  induction s with
  | nil => rfl
  | cons c rest ih =>
    have hc : ¬ c = '.' := fun he => h (he ▸ List.Mem.head _)
    have hr : '.' ∉ rest := fun hm => h (List.Mem.tail _ hm)
    rw [splitDots_cons c rest rest [] (ih hr), if_neg hc]

/-- A string with a dot splits into at least two parts. -/
theorem splitDots_mem_dot (s : List Char) (h : '.' ∈ s) :
    ∃ p ps, splitDots s = p :: ps ∧ ps ≠ [] := by
  induction s with
  | nil => cases h
  | cons c rest ih =>
    by_cases hc : c = '.'
    · obtain ⟨p, ps, hsp⟩ := List.exists_cons_of_ne_nil (splitDots_ne_nil rest)
      exact ⟨[], p :: ps, by rw [splitDots_cons c rest p ps hsp, if_pos hc],
        List.cons_ne_nil _ _⟩
    · have hr : '.' ∈ rest := by
        rcases List.mem_cons.mp h with he | hm
        · exact absurd he.symm hc
        · exact hm
      obtain ⟨p, ps, hsp, hps⟩ := ih hr
      exact ⟨c :: p, ps, by rw [splitDots_cons c rest p ps hsp, if_neg hc], hps⟩

/-- The extension ignores a leading dot. -/
theorem formatTag_cons_dot (rest : List Char) :
    formatTag ('.' :: rest) = formatTag rest := by
  obtain ⟨p, ps, hsp⟩ := List.exists_cons_of_ne_nil (splitDots_ne_nil rest)
  unfold formatTag
  rw [hsp, splitDots_cons '.' rest p ps hsp, if_pos rfl,
    List.getLast?_cons_cons]

/-- The extension ignores a leading non-dot character when a dot occurs
later. -/
theorem formatTag_cons_nodot_mem (c : Char) (rest : List Char) (hc : ¬ c = '.')
    (hm : '.' ∈ rest) : formatTag (c :: rest) = formatTag rest := by
  obtain ⟨p, ps, hsp, hps⟩ := splitDots_mem_dot rest hm
  obtain ⟨q, qs, hq⟩ := List.exists_cons_of_ne_nil hps
  unfold formatTag
  rw [hsp, splitDots_cons c rest p ps hsp, if_neg hc, hq,
    List.getLast?_cons_cons, List.getLast?_cons_cons]

/-- Without any dot the extension is the whole string. -/
theorem formatTag_no_dot (s : List Char) (h : '.' ∉ s) : formatTag s = s := by
  unfold formatTag
  rw [splitDots_no_dot s h]
  rfl

-- Helper lemmas about takeWhile, for the refinement of the extension to
-- the spec description.

/-- Appending one failing element does not change takeWhile. -/
theorem takeWhile_append_last_false (p : Char → Bool) (xs : List Char)
    (a : Char) (ha : p a = false) :
    (xs ++ [a]).takeWhile p = xs.takeWhile p := by
  induction xs with
  | nil => simp [List.takeWhile, ha]
  | cons x xs ih =>
    cases hx : p x <;>
      simp [List.takeWhile_cons, hx, ih]

/-- When some element of the first part fails the predicate, takeWhile
never reaches the appended part. -/
theorem takeWhile_append_of_mem_false (p : Char → Bool) (xs ys : List Char)
    (h : ∃ x ∈ xs, p x = false) :
    (xs ++ ys).takeWhile p = xs.takeWhile p := by
  induction xs with
  | nil => obtain ⟨x, hx, -⟩ := h; cases hx
  | cons x xs ih =>
    cases hx : p x with
    | false => simp [List.takeWhile_cons, hx]
    | true =>
      obtain ⟨y, hy, hyp⟩ := h
      rcases List.mem_cons.mp hy with rfl | hys
      · exact absurd hx (by simp [hyp])
      · simp [List.takeWhile_cons, hx, ih ⟨y, hys, hyp⟩]

/-- When every element satisfies the predicate, takeWhile keeps the whole
list. -/
theorem takeWhile_all_true (p : Char → Bool) (xs : List Char)
    (h : ∀ x ∈ xs, p x = true) : xs.takeWhile p = xs := by
  induction xs with
  | nil => rfl
  | cons x xs ih =>
    simp [List.takeWhile_cons, h x (List.Mem.head _),
      ih fun y hy => h y (List.Mem.tail _ hy)]

/-- The last element of the dot split is the trailing run of non-dot
characters: the extension the code computes is the substring after the
last separator that the spec describes. -/
theorem formatTag_eq_suffix (s : List Char) :
    formatTag s = suffixAfterLastSep s := by
  induction s with
  | nil => rfl
  | cons c rest ih =>
    by_cases hc : c = '.'
    · subst hc
      rw [formatTag_cons_dot, ih]
      unfold suffixAfterLastSep
      rw [List.reverse_cons, takeWhile_append_last_false _ _ _ (by simp)]
    · by_cases hm : '.' ∈ rest
      · rw [formatTag_cons_nodot_mem c rest hc hm, ih]
        unfold suffixAfterLastSep
        rw [List.reverse_cons,
          takeWhile_append_of_mem_false _ _ _
            ⟨'.', List.mem_reverse.mpr hm, by simp⟩]
      · have hs : '.' ∉ c :: rest := by
          intro h
          rcases List.mem_cons.mp h with he | hr
          · exact hc he.symm
          · exact hm hr
        rw [formatTag_no_dot _ hs]
        unfold suffixAfterLastSep
        rw [List.reverse_cons, takeWhile_all_true]
        · simp
        · intro x hx
          rcases List.mem_append.mp hx with hx | hx
          · have hxr : x ∈ rest := List.mem_reverse.mp hx
            have : ¬ x = '.' := fun he => hm (he ▸ hxr)
            simp [this]
          · have : x = c := by simpa using hx
            subst this
            simp [fun he => hc he]

-- Helper lemmas about the s3 pattern.

/-- Scanning a slash-free prefix, the key check lands exactly on the part
after the appended slash. -/
theorem keyAfterFirstSlash_append (l key : List Char)
    (h : hasSlash l = false) :
    keyAfterFirstSlash (l ++ '/' :: key) = noNewline key := by
  induction l with
  | nil => simp [keyAfterFirstSlash]
  | cons c l ih =>
    have hc : ¬ c = '/' := by
      intro he
      rw [hasSlash, if_pos he] at h
      cases h
    have hl : hasSlash l = false := by
      rwa [hasSlash, if_neg hc] at h
    simp only [List.cons_append, keyAfterFirstSlash, if_neg hc]
    exact ih hl

/-- Every identifier shaped as an s3 scheme, a nonempty bucket without a
slash, a slash, and a newline-free key matches the s3 pattern. -/
theorem reS3Match_shape (bucket key : List Char) (h1 : bucket ≠ [])
    (h2 : hasSlash bucket = false) (h3 : noNewline key = true) :
    reS3Match (s3Prefix ++ (bucket ++ '/' :: key)) = true := by
  cases bucket with
  | nil => exact absurd rfl h1
  | cons b0 bt =>
    have hred : reS3Match (s3Prefix ++ ((b0 :: bt) ++ '/' :: key)) =
        bucketKeyMatch (b0 :: (bt ++ '/' :: key)) := rfl
    rw [hred]
    have hb0 : ¬ b0 = '/' := by
      intro he
      rw [hasSlash, if_pos he] at h2
      cases h2
    have hbt : hasSlash bt = false := by
      rwa [hasSlash, if_neg hb0] at h2
    simp only [bucketKeyMatch, if_neg hb0]
    rw [keyAfterFirstSlash_append bt key hbt]
    exact h3

-- Concrete registries, readers and identifiers used by the closed
-- statements below.

/-- A pattern matching every identifier. -/
def patAll : Pattern := fun _ => true

/-- A pattern matching no identifier. -/
def patNone : Pattern := fun _ => false

/-- A registered test provider. -/
def tlA : TypeLoader := TypeLoader.test 1 fun _ => Except.error "provider A"

/-- Another registered test provider, distinguishable from tlA. -/
def tlB : TypeLoader := TypeLoader.test 2 fun _ => Except.error "provider B"

/-- An identifier both overlapping patterns match. -/
def exId : List Char := "overlap".toList

/-- A registry with two bindings, registered in the order tlA then tlB,
whose patterns both match every identifier. -/
def exLoader : Loader := { types := [(patAll, tlA), (patAll, tlB)], fallback := none }

/-- The other iteration order of the two map entries of exLoader. -/
def exSwapped : List (Pattern × TypeLoader) := [(patAll, tlB), (patAll, tlA)]

/-- A registry where exactly one binding matches, bound to tlA, with a
second non-matching binding bound to tlB. -/
def wAgree : Loader := { types := [(patAll, tlA), (patNone, tlB)], fallback := none }

/-- The other iteration order of the two map entries of wAgree. -/
def wSwapped : List (Pattern × TypeLoader) := [(patNone, tlB), (patAll, tlA)]

/-- A closeable reader whose collaborators all succeed. -/
def wr3 : Reader :=
  { closeable := true, closeErr := none, jsonOutcome := none,
    xmlOutcome := none, readAllOutcome := Except.ok [],
    yamlOutcome := fun _ => none }

/-- A registry whose fallback provider returns wr3. -/
def wl3 : Loader :=
  { types := [], fallback := some (TypeLoader.test 3 fun _ => Except.ok wr3) }

/-- A closeable reader whose Close fails and whose json decode fails. -/
def cr4 : Reader :=
  { closeable := true, closeErr := some "close failed",
    jsonOutcome := some "decode failed", xmlOutcome := none,
    readAllOutcome := Except.ok [], yamlOutcome := fun _ => none }

/-- A closeable reader whose json decode fails and whose Close succeeds. -/
def wr4 : Reader :=
  { closeable := true, closeErr := none,
    jsonOutcome := some "decode failed", xmlOutcome := none,
    readAllOutcome := Except.ok [], yamlOutcome := fun _ => none }

/-- A registry with one non-matching binding and no fallback. -/
def lNoFb : Loader := { types := [(patNone, tlA)], fallback := none }

/-- A registry with one non-matching binding and tlB as fallback. -/
def lFb : Loader := { types := [(patNone, tlA)], fallback := some tlB }

/-- A stand-in for the external aws GetObject behaviour of the default s3
loader. -/
def s3X : List Char → Except GoError Reader := fun _ => Except.error "aws GetObject"

/-- A stand-in for the external os.Open behaviour of the default file
loader. -/
def flX : List Char → Except GoError Reader := fun _ => Except.error "os.Open"

/-- A non-closeable reader. -/
def wr10 : Reader :=
  { closeable := false, closeErr := none, jsonOutcome := none,
    xmlOutcome := none, readAllOutcome := Except.ok [],
    yamlOutcome := fun _ => none }

/-- A registry whose fallback provider returns the non-closeable wr10. -/
def wl10 : Loader :=
  { types := [], fallback := some (TypeLoader.test 4 fun _ => Except.ok wr10) }

/-- A registry with no bindings and no fallback. -/
def wl10e : Loader := { types := [], fallback := none }

-- Claim C1.

/-- Claim C1, counterexample: in the registry exLoader both registered
patterns match the identifier and tlA was registered before tlB, yet the
reversed entry order is also a permutation of the map entries, hence a
legal iteration order of the Go map range loop, and under it resolution
selects tlB, not the earlier-registered tlA. So resolution does not select
the binding registered earlier; it selects the first match in the
unspecified iteration order of this call. -/
theorem c1_counterexample :
    exSwapped.Perm exLoader.types ∧
    patAll exId = true ∧
    exLoader.getReaderGetter exLoader.types exId = some tlA ∧
    exLoader.getReaderGetter exSwapped exId = some tlB ∧
    tlB ≠ tlA := by
  refine ⟨List.Perm.swap (patAll, tlA) (patAll, tlB) [], rfl, rfl, rfl, ?_⟩
  intro h
  simp only [tlB, tlA] at h
  injection h with h1 h2
  exact absurd h1 (by decide)

/-- Claim C1, amended: resolution returns the first match in the iteration
order of the Go map holding the bindings, and that order is unspecified
rather than the registration order; whenever every registered binding
whose pattern matches the identifier carries the same provider, in
particular whenever at most one registered pattern matches, that provider
is selected under every iteration order. -/
theorem c1_amended (l : Loader) (order : List (Pattern × TypeLoader))
    (fn : List Char) (t : TypeLoader)
    (hperm : order.Perm l.types)
    (hex : ∃ e ∈ l.types, e.1 fn = true)
    (hagree : ∀ e ∈ l.types, e.1 fn = true → e.2 = t) :
    l.getReaderGetter order fn = some t := by
  obtain ⟨e0, he0, hm0⟩ := hex
  obtain ⟨e, heo, hme, hres⟩ :=
    iter_first_match l.fallback fn order ⟨e0, hperm.mem_iff.mpr he0, hm0⟩
  rw [show l.getReaderGetter order fn = iterGetReaderGetter l.fallback order fn
      from rfl, hres]
  exact congrArg some (hagree e (hperm.mem_iff.mp heo) hme)

/-- Witness for the amended claim C1 at the registry wAgree, its swapped
iteration order, and the identifier exId. -/
theorem c1_amended_witness : wAgree.getReaderGetter wSwapped exId = some tlA :=
  c1_amended wAgree wSwapped exId tlA
    (List.Perm.swap (patAll, tlA) (patNone, tlB) [])
    ⟨(patAll, tlA), List.Mem.head _, rfl⟩
    (by
      intro e he hm
      rcases List.mem_cons.mp he with rfl | he2
      · rfl
      · rcases List.mem_cons.mp he2 with rfl | he3
        · exact absurd hm (by decide)
        · cases he3)

-- Claim C2.

/-- Claim C2, counterexample: for the fixed registry state exLoader and
the fixed identifier exId, the insertion order and its reversal are both
permutations of the map entries, hence legal iteration orders of two
GetReader calls, and the two calls produce different results because they
pick different providers. Resolution is therefore not a function of the
registry state and the identifier alone. -/
theorem c2_counterexample :
    exLoader.types.Perm exLoader.types ∧
    exSwapped.Perm exLoader.types ∧
    exLoader.GetReader exLoader.types exId ≠ exLoader.GetReader exSwapped exId := by
  refine ⟨List.Perm.refl _, List.Perm.swap (patAll, tlA) (patAll, tlB) [], ?_⟩
  intro h
  have h2 : (Except.error "provider A" : Except GoError Reader) =
      Except.error "provider B" := h
  injection h2 with h3
  exact absurd h3 (by decide)

/-- Claim C2, amended: two GetReader calls on the same registry state and
identifier agree whenever every binding whose pattern matches the
identifier carries the same provider, in particular whenever at most one
registered pattern matches, as in the default configuration; with
overlapping patterns bound to different providers the outcome additionally
depends on the unspecified map iteration order of each call. -/
theorem c2_amended (l : Loader) (o1 o2 : List (Pattern × TypeLoader))
    (fn : List Char)
    (h1 : o1.Perm l.types) (h2 : o2.Perm l.types)
    (hagree : ∀ e ∈ l.types, ∀ f ∈ l.types,
      e.1 fn = true → f.1 fn = true → e.2 = f.2) :
    l.GetReader o1 fn = l.GetReader o2 fn := by
  by_cases hex : ∃ e ∈ l.types, e.1 fn = true
  · obtain ⟨e0, he0, hm0⟩ := hex
    have key : ∀ o : List (Pattern × TypeLoader), o.Perm l.types →
        l.getReaderGetter o fn = some e0.2 := by
      intro o ho
      obtain ⟨e, heo, hme, hres⟩ :=
        iter_first_match l.fallback fn o ⟨e0, ho.mem_iff.mpr he0, hm0⟩
      rw [show l.getReaderGetter o fn = iterGetReaderGetter l.fallback o fn
          from rfl, hres]
      exact congrArg some (hagree e (ho.mem_iff.mp heo) e0 he0 hme hm0)
    unfold Loader.GetReader
    rw [key o1 h1, key o2 h2]
  · push_neg at hex
    have hall : ∀ o : List (Pattern × TypeLoader), o.Perm l.types →
        l.getReaderGetter o fn = l.fallback := by
      intro o ho
      apply iter_no_match
      intro e he
      cases h : e.1 fn
      · rfl
      · exact absurd h (hex e (ho.mem_iff.mp he))
    unfold Loader.GetReader
    rw [hall o1 h1, hall o2 h2]

/-- Witness for the amended claim C2 at the registry wAgree, comparing its
swapped iteration order with the insertion order on the identifier
exId. -/
theorem c2_amended_witness :
    wAgree.GetReader wSwapped exId = wAgree.GetReader wAgree.types exId :=
  c2_amended wAgree wSwapped wAgree.types exId
    (List.Perm.swap (patAll, tlA) (patNone, tlB) [])
    (List.Perm.refl _)
    (by
      intro e he f hf hme hmf
      rcases List.mem_cons.mp he with rfl | he2
      · rcases List.mem_cons.mp hf with rfl | hf2
        · rfl
        · rcases List.mem_cons.mp hf2 with rfl | hf3
          · exact absurd hmf (by decide)
          · cases hf3
      · rcases List.mem_cons.mp he2 with rfl | he3
        · exact absurd hme (by decide)
        · cases he3)

-- Claim C3.

/-- Claim C3: whenever Load actually acquired a reader, the reader is
closed exactly once before Load returns, on every exit path of the decode
switch, and it is closed exactly when it supports io.Closer: a conditional
deferred Close runs once at each return, whether the decode succeeds, the
decode fails, or the buffering read of the yaml branch fails. -/
theorem c3_release_exactly_once (l : Loader) (order : List (Pattern × TypeLoader))
    (fn : List Char) (r : Reader)
    (hacq : l.GetReader order fn = Except.ok r) :
    (l.Load order fn).closes = (if r.closeable then 1 else 0) := by
  have h : l.Load order fn = loadAcquired fn r := by
    unfold Loader.Load
    rw [hacq]
  rw [h]
  unfold loadAcquired
  cases hsel : selectDecoder fn
  · rfl
  · rfl
  · cases hra : r.readAllOutcome
    · rfl
    · rfl

/-- Witness for claim C3 at the registry wl3, whose fallback produces the
closeable reader wr3, on a json identifier. -/
theorem c3_release_exactly_once_witness :
    (wl3.Load [] "cfg.json".toList).closes = (if wr3.closeable then 1 else 0) :=
  c3_release_exactly_once wl3 [] "cfg.json".toList wr3 rfl

-- Claim C4.

/-- Claim C4, counterexample: on the closeable reader cr4 the release
fails and the json decode fails; the primary decode failure is indeed the
returned error, but the whole observable outcome of the acquired part of
Load is identical to the run on the same reader whose Close succeeds, so
the release failure is not reported anywhere: the deferred Close discards
its error, and the source has no logging. -/
theorem c4_counterexample :
    cr4.closeable = true ∧
    cr4.closeErr = some "close failed" ∧
    loadAcquired "a.json".toList cr4 =
      loadAcquired "a.json".toList { cr4 with closeErr := none } ∧
    (loadAcquired "a.json".toList cr4).retErr = some "decode failed" :=
  ⟨rfl, rfl, rfl, rfl⟩

/-- Claim C4, amended: a preceding decode failure is surfaced as the
primary and only error, and the error of the deferred Close is silently
discarded rather than reported: the outcome of the acquired part of Load
never depends on what Close returns. -/
theorem c4_amended (fn : List Char) (r : Reader) (x : Option GoError)
    (e : GoError) :
    loadAcquired fn { r with closeErr := x } = loadAcquired fn r ∧
    (selectDecoder fn = DecoderKind.json → r.jsonOutcome = some e →
      (loadAcquired fn r).retErr = some e) := by
  constructor
  · unfold loadAcquired
    cases hsel : selectDecoder fn
    · rfl
    · rfl
    · cases hra : r.readAllOutcome
      · rfl
      · rfl
  · intro hsel hj
    unfold loadAcquired
    rw [hsel]
    simp [hj]

/-- Witness for the amended claim C4 at the reader wr4 with a failing json
decode, under a discarded close error. -/
theorem c4_amended_witness :
    (loadAcquired "a.json".toList wr4).retErr = some "decode failed" :=
  (c4_amended "a.json".toList wr4 (some "boom") "decode failed").2 rfl rfl

-- Claim C6.

/-- Claim C6: when no registered pattern matches the identifier, under any
iteration order of the map entries, GetReader with a nil fallback returns
the ErrorNoReader error value, as an ordinary error return of the total
resolution function rather than a panic, and GetReader with a configured
fallback delegates to the fallback with the raw identifier. -/
theorem c6_no_match_fallback (l : Loader) (order : List (Pattern × TypeLoader))
    (fn : List Char)
    (hperm : order.Perm l.types)
    (hnone : ∀ e ∈ l.types, e.1 fn = false) :
    (l.fallback = none → l.GetReader order fn = Except.error ErrorNoReader) ∧
    (∀ fb, l.fallback = some fb → l.GetReader order fn = fb.GetReader fn) := by
  have hno : ∀ e ∈ order, e.1 fn = false :=
    fun e he => hnone e (hperm.mem_iff.mp he)
  have hres : l.getReaderGetter order fn = l.fallback :=
    iter_no_match l.fallback fn order hno
  constructor
  · intro hf
    unfold Loader.GetReader
    rw [hres, hf]
  · intro fb hf
    unfold Loader.GetReader
    rw [hres, hf]

/-- Witness for claim C6: the fallback-free registry lNoFb yields
ErrorNoReader on exId, and the registry lFb delegates to its fallback tlB
with the raw exId. -/
theorem c6_no_match_fallback_witness :
    lNoFb.GetReader lNoFb.types exId = Except.error ErrorNoReader ∧
    lFb.GetReader lFb.types exId = tlB.GetReader exId := by
  constructor
  · exact (c6_no_match_fallback lNoFb lNoFb.types exId (List.Perm.refl _)
      (by
        intro e he
        rcases List.mem_cons.mp he with rfl | h
        · rfl
        · cases h)).1 rfl
  · exact (c6_no_match_fallback lFb lFb.types exId (List.Perm.refl _)
      (by
        intro e he
        rcases List.mem_cons.mp he with rfl | h
        · rfl
        · cases h)).2 tlB rfl

-- Claim C7.

/-- Claim C7, counterexample: the identifier built from the s3 scheme, the
nonempty slash-free bucket b and the key of k followed by a newline is of
the shape of an s3 scheme, a bucket and a key, yet the anchored pattern
rejects it, because under RE2 semantics the dot of the key group does not
match a newline and the dollar anchor is end of text; in the default
configuration the identifier therefore resolves to the local file
fallback, not to the s3 provider. -/
theorem c7_counterexample :
    "s3://b/k\n".toList = s3Prefix ++ ("b".toList ++ '/' :: "k\n".toList) ∧
    "b".toList ≠ [] ∧
    hasSlash "b".toList = false ∧
    reS3Match "s3://b/k\n".toList = false ∧
    (DefaultLoader s3X flX).getReaderGetter (DefaultLoader s3X flX).types
        "s3://b/k\n".toList =
      some (TypeLoader.file flX) := by
  exact ⟨rfl, by decide, rfl, rfl, rfl⟩

/-- Claim C7, amended: whenever some registered pattern matches the
identifier, resolution returns the provider of a matching registered
binding under every iteration order, never falling through to the
fallback, whatever the fallback is; and in the default configuration every
identifier of the shape of an s3 scheme with a nonempty slash-free bucket
and a newline-free key resolves to the s3 provider, not to the local file
fallback. A key containing a newline is rejected by the anchored pattern
and falls through to the fallback instead. -/
theorem c7_match_never_fallback :
    (∀ (l : Loader) (order : List (Pattern × TypeLoader)) (fn : List Char),
      order.Perm l.types → (∃ e ∈ l.types, e.1 fn = true) →
      ∃ e ∈ l.types, e.1 fn = true ∧ l.getReaderGetter order fn = some e.2) ∧
    (∀ (s3Ext fileExt : List Char → Except GoError Reader)
      (order : List (Pattern × TypeLoader)) (bucket key : List Char),
      order.Perm (DefaultLoader s3Ext fileExt).types →
      bucket ≠ [] → hasSlash bucket = false → noNewline key = true →
      (DefaultLoader s3Ext fileExt).getReaderGetter order
          (s3Prefix ++ (bucket ++ '/' :: key)) =
        some (TypeLoader.s3 s3Ext)) := by
  constructor
  · intro l order fn hperm hex
    obtain ⟨e0, he0, hm0⟩ := hex
    obtain ⟨e, heo, hme, hres⟩ :=
      iter_first_match l.fallback fn order ⟨e0, hperm.mem_iff.mpr he0, hm0⟩
    exact ⟨e, hperm.mem_iff.mp heo, hme, hres⟩
  · intro s3Ext fileExt order bucket key hperm h1 h2 h3
    have horder : order = [(reS3Match, TypeLoader.s3 s3Ext)] :=
      List.perm_singleton.mp hperm
    subst horder
    unfold Loader.getReaderGetter iterGetReaderGetter
    rw [reS3Match_shape bucket key h1 h2 h3]
    rfl

/-- Witness for the amended claim C7: on the registry wAgree a matching
binding is selected, and the default configuration sends the bucket1 and
key1 identifier, whose key has no newline, to the s3 provider. -/
theorem c7_match_never_fallback_witness :
    (∃ e ∈ wAgree.types, e.1 exId = true ∧
      wAgree.getReaderGetter wAgree.types exId = some e.2) ∧
    (DefaultLoader s3X flX).getReaderGetter (DefaultLoader s3X flX).types
        (s3Prefix ++ ("bucket1".toList ++ '/' :: "key1".toList)) =
      some (TypeLoader.s3 s3X) := by
  constructor
  · exact c7_match_never_fallback.1 wAgree wAgree.types exId (List.Perm.refl _)
      ⟨(patAll, tlA), List.Mem.head _, rfl⟩
  · exact c7_match_never_fallback.2 s3X flX _ "bucket1".toList "key1".toList
      (List.Perm.refl _) (by decide) (by decide) (by decide)

-- Claim C8.

/-- Claim C8: decoder selection is a total function and never fails; every
identifier whose lower-cased extension is none of the four recognized tags
json, xml, yml and yaml, including an identifier without any dot, where
the extension is the whole identifier, falls through the switch to the
default branch and is decoded with the json decoder. -/
theorem c8_unrecognized_tag_default_json (fn : List Char)
    (h : lowerTag fn ≠ "json".toList ∧ lowerTag fn ≠ "xml".toList ∧
      lowerTag fn ≠ "yml".toList ∧ lowerTag fn ≠ "yaml".toList) :
    selectDecoder fn = DecoderKind.json := by
  obtain ⟨h1, h2, h3, h4⟩ := h
  unfold selectDecoder decoderOfLowerExt
  rw [if_neg h1, if_neg h2, if_neg ?_]
  rintro (h | h)
  · exact h3 h
  · exact h4 h

/-- Witness for claim C8 at the identifier noext, which has no dot at
all. -/
theorem c8_unrecognized_tag_default_json_witness :
    selectDecoder "noext".toList = DecoderKind.json :=
  c8_unrecognized_tag_default_json "noext".toList
    ⟨by decide, by decide, by decide, by decide⟩

-- Claim C9.

/-- Claim C9: the format tag the code computes is exactly the lower-cased
substring after the last separator, so decoder selection is a function of
that value alone: two identifiers whose suffixes agree after lower-casing
select the same decoder, and in particular the upper-case and lower-case
json extensions select the same decoder. -/
theorem c9_tag_function_of_lower_suffix :
    (∀ s1 s2 : List Char,
      (suffixAfterLastSep s1).map Char.toLower =
        (suffixAfterLastSep s2).map Char.toLower →
      selectDecoder s1 = selectDecoder s2) ∧
    selectDecoder "a.JSON".toList = selectDecoder "a.json".toList := by
  constructor
  · intro s1 s2 h
    unfold selectDecoder lowerTag
    rw [formatTag_eq_suffix, formatTag_eq_suffix, h]
  · rfl

/-- Witness for claim C9 at two identifiers whose suffixes agree only
after lower-casing. -/
theorem c9_tag_function_of_lower_suffix_witness :
    selectDecoder "x.YML".toList = selectDecoder "b.yml".toList :=
  c9_tag_function_of_lower_suffix.1 "x.YML".toList "b.yml".toList (by decide)

-- Claim C10.

/-- Claim C10: a GetReader failure propagates through GetReadCloser as the
same error; a successful GetReader always turns into a successful
GetReadCloser over the same underlying reader, returned as is when the
reader is already closeable and wrapped in the no-op NopCloser otherwise,
whose Close returns nil. -/
theorem c10_read_closer (l : Loader) (order : List (Pattern × TypeLoader))
    (fn : List Char) :
    (∀ e, l.GetReader order fn = Except.error e →
      l.GetReadCloser order fn = Except.error e) ∧
    (∀ r, l.GetReader order fn = Except.ok r → r.closeable = true →
      l.GetReadCloser order fn = Except.ok (ReadCloser.original r) ∧
      (ReadCloser.original r).underlying = r) ∧
    (∀ r, l.GetReader order fn = Except.ok r → r.closeable = false →
      l.GetReadCloser order fn = Except.ok (ReadCloser.nopWrapped r) ∧
      (ReadCloser.nopWrapped r).underlying = r ∧
      (ReadCloser.nopWrapped r).closeResult = none) := by
  refine ⟨?_, ?_, ?_⟩
  · intro e he
    unfold Loader.GetReadCloser
    rw [he]
  · intro r hr hc
    refine ⟨?_, rfl⟩
    unfold Loader.GetReadCloser
    rw [hr]
    simp [hc]
  · intro r hr hc
    refine ⟨?_, rfl, rfl⟩
    unfold Loader.GetReadCloser
    rw [hr]
    simp [hc]

/-- Witness for claim C10: the empty registry propagates ErrorNoReader,
and the registry wl10 wraps its non-closeable reader in the no-op
closer. -/
theorem c10_read_closer_witness :
    wl10e.GetReadCloser [] exId = Except.error ErrorNoReader ∧
    wl10.GetReadCloser [] exId = Except.ok (ReadCloser.nopWrapped wr10) ∧
    (ReadCloser.nopWrapped wr10).closeResult = none := by
  refine ⟨?_, ?_, ?_⟩
  · exact (c10_read_closer wl10e [] exId).1 ErrorNoReader rfl
  · exact ((c10_read_closer wl10 [] exId).2.2 wr10 rfl rfl).1
  · exact ((c10_read_closer wl10 [] exId).2.2 wr10 rfl rfl).2.2

end Loadfile
